import Mathlib

/-!
Verification of the extraction-and-reconciliation engine of the
lioncrest-server repository, against its natural-language specification.

The embedding below follows `llm_utils/data_extractor/extractor.py`,
`llm_utils/llm_utils.py` and the schema modules under
`llm_utils/schemas/`.  Python dicts are modelled as insertion-ordered
association lists with string keys; `null` values are `Option.none`;
raised exceptions are `Except.error`.  Field descriptions, which only
affect prompt wording, are not carried in the field metadata.
-/

set_option autoImplicit false

namespace Lioncrest

/-- A Python `dict` with string keys: its insertion-ordered list of
key–value pairs.  Dicts built by the operations below have pairwise
distinct keys, like real Python dicts. -/
abbrev PyDict (V : Type) : Type := List (String × V)

/-- Python `k in d`. -/
def pyMem {V : Type} (d : PyDict V) (k : String) : Bool :=
  d.any (fun p => p.1 == k)

/-- Python `d[k]` as an option: the value at the first (in a real dict,
unique) binding of `k`. -/
def pyLookup {V : Type} (d : PyDict V) (k : String) : Option V :=
  (d.find? (fun p => p.1 == k)).map Prod.snd

/-- Python `d[k] = v`: overwrite the binding of `k` when present, else
append a new binding (Python dicts keep insertion order). -/
def pyInsert {V : Type} (d : PyDict V) (k : String) (v : V) : PyDict V :=
  if pyMem d k then d.map (fun p => if p.1 == k then (k, v) else p)
  else d ++ [(k, v)]

/-- A flat record: a dict whose values may be `null` (`none`). -/
abbrev Rec (V : Type) : Type := PyDict (Option V)

/-- Python `d.get(k)` on a record: `None` both when `k` is absent and when
it is bound to `null`. -/
def pyGet {V : Type} (r : Rec V) (k : String) : Option V :=
  (pyLookup r k).join

/-! ### `_compare_records` (extractor.py, lines 214–259) -/

/-- One entry of the `changes` map: the old and new value of a key. -/
structure ChangeEntry (V : Type) where
  old : Option V
  new : Option V
deriving DecidableEq

/-- The change-tracking metadata `_compare_records` returns.  It has
exactly the categories below: there is no separate "removed" category. -/
structure ChangeSet (V : Type) where
  updated_fields : List String
  added_fields : List String
  unchanged_fields : List String
  changes : PyDict (ChangeEntry V)
  total_changes : Nat
deriving DecidableEq

/-- `set(old_data.keys()) | set(new_data.keys())`, the keys the loop in
`_compare_records` visits.  Python set iteration order is unspecified; we
fix the equivalent deduplicated order (no claim depends on the order). -/
def allKeys {V : Type} (old new : Rec V) : List String :=
  (old.map Prod.fst ++ new.map Prod.fst).dedup

/-- The entry the loop body of `_compare_records` stores in `changes` for
a key, if any: an added key (`key not in old_data`) stores
`{old: None, new: new_val}`, a key whose `.get` values differ stores
`{old: old_val, new: new_val}`, an unchanged key stores nothing. -/
def changeAt {V : Type} [DecidableEq V] (old new : Rec V) (k : String) :
    Option (ChangeEntry V) :=
  if pyMem old k = false then some ⟨none, pyGet new k⟩
  else if pyGet old k ≠ pyGet new k then some ⟨pyGet old k, pyGet new k⟩
  else none

/-- Shallow embedding of `_compare_records`: one pass over the union of
keys, classifying each key as added (absent from `old`), updated (present
in `old`, `.get` values differ) or unchanged (present in `old`, `.get`
values equal), with `total_changes = len(updated) + len(added)`. -/
def compare_records {V : Type} [DecidableEq V] (old new : Rec V) :
    ChangeSet V :=
  { updated_fields :=
      (allKeys old new).filter
        (fun k => pyMem old k && decide (pyGet old k ≠ pyGet new k))
    added_fields := (allKeys old new).filter (fun k => !pyMem old k)
    unchanged_fields :=
      (allKeys old new).filter
        (fun k => pyMem old k && decide (pyGet old k = pyGet new k))
    changes :=
      (allKeys old new).filterMap
        (fun k => (changeAt old new k).map (fun e => (k, e)))
    total_changes :=
      ((allKeys old new).filter
        (fun k => pyMem old k && decide (pyGet old k ≠ pyGet new k))).length
        + ((allKeys old new).filter (fun k => !pyMem old k)).length }

/-! ### Python string primitives

Python strings are sequences of code points; we model the handful of
string methods the extractor uses directly over the character list, so
they compute.  `lower()` is modelled on the ASCII range, which covers
every schema alias and every key the heuristics inspect. -/

/-- Python `str.lower()` (ASCII range). -/
def pyLower (s : String) : String :=
  String.mk (s.data.map (fun c =>
    if 65 ≤ c.toNat ∧ c.toNat ≤ 90 then Char.ofNat (c.toNat + 32) else c))

/-- The whitespace characters Python `str.strip()` removes (ASCII). -/
def isSpaceChar (c : Char) : Bool :=
  c == ' ' || c == '\t' || c == '\n' || c == '\r'

/-- Python `str.strip()`: drop leading and trailing whitespace. -/
def pyStrip (s : String) : String :=
  String.mk (((s.data.dropWhile isSpaceChar).reverse.dropWhile
    isSpaceChar).reverse)

/-- Python `s.endswith(t)`. -/
def pyEndsWith (s t : String) : Bool :=
  t.data.isSuffixOf s.data

/-- Whether `pat` occurs contiguously in the character list. -/
def pyContainsAux (pat : List Char) : List Char → Bool
  | [] => pat.isEmpty
  | c :: t => pat.isPrefixOf (c :: t) || pyContainsAux pat t

/-- Python `pat in s` for strings. -/
def pyContains (s pat : String) : Bool :=
  pyContainsAux pat.data s.data

/-! ### `_normalize_existing_data` (extractor.py, lines 160–211) -/

/-- Python `s.split('(')[0]`: everything before the first `(`. -/
def beforeParen (s : String) : String :=
  String.mk (s.data.takeWhile (fun c => c != '('))

/-- The `alias_map` built in `_normalize_existing_data`: for each field
alias, map its lowercased/stripped form to the alias, and additionally —
when it differs in lowercase — the lowercased form with the trailing
parenthetical suffix stripped.  Later fields overwrite earlier bindings,
as Python dict assignment does. -/
def alias_map (aliases : List String) : PyDict String :=
  aliases.foldl
    (fun m a =>
      let m1 := pyInsert m (pyStrip (pyLower a)) a
      let base := pyStrip (beforeParen a)
      if pyLower base ≠ pyLower a then pyInsert m1 (pyLower base) a else m1)
    []

/-- The key under which `_normalize_existing_data` re-files an incoming
key: try an exact alias match, then the case/space-normalized form in
`alias_map`, then the parenthetical-stripped form, and fall back to the
original key (custom fields pass through). -/
def targetKey (aliases : List String) (k : String) : String :=
  if k ∈ aliases then k
  else
    match pyLookup (alias_map aliases) (pyStrip (pyLower k)) with
    | some a => a
    | none =>
      match pyLookup (alias_map aliases) (pyLower (pyStrip (beforeParen k))) with
      | some a => a
      | none => k

/-- Shallow embedding of `_normalize_existing_data`: each incoming binding
is stored under the key the four-way match chain selects, into a fresh
dict. -/
def normalize_existing_data {V : Type} (aliases : List String)
    (d : PyDict V) : PyDict V :=
  d.foldl (fun acc p => pyInsert acc (targetKey aliases p.1) p.2) []

/-! ### Values and server-side validation

`model_validate` models pydantic v2 validation of the repository's
models: every field is `Optional` with default `None` and an alias,
`model_config` sets `populate_by_name` but never `extra`, so unknown
keys are ignored (pydantic's default), aliases take precedence over
field names, and enum-typed values must be declared members.  Values are
restricted to the scalar/list shapes these schemas use. -/

/-- A scalar JSON value as used by the schemas: a string or an integer. -/
inductive Scalar where
  | str (s : String)
  | int (n : Int)
deriving DecidableEq

/-- A field value: a scalar or a list of scalars. -/
inductive PyVal where
  | scalar (x : Scalar)
  | list (xs : List Scalar)
deriving DecidableEq

/-- The semantic type a field declares. -/
inductive FieldType where
  | str
  | int
  | enum (legal : List String)
  | listStr
  | listEnum (legal : List String)
deriving DecidableEq

/-- One pydantic model field: internal name, external alias, type. -/
structure FieldSpec where
  name : String
  aliasName : String
  ftype : FieldType
deriving DecidableEq

/-- Whether a non-null value satisfies a declared field type; enum-typed
fields accept only declared members. -/
def checkType : FieldType → PyVal → Bool
  | .str, .scalar (.str _) => true
  | .int, .scalar (.int _) => true
  | .enum legal, .scalar (.str s) => legal.contains s
  | .listStr, .list xs =>
    xs.all (fun x => match x with | .str _ => true | .int _ => false)
  | .listEnum legal, .list xs =>
    xs.all (fun x => match x with | .str s => legal.contains s | .int _ => false)
  | _, _ => false

/-- The raw value pydantic sees for a field: the alias binding when
present (even if bound to `null`), else the field-name binding
(`populate_by_name`), else absent — absent and `null` both validate to
`None` for these all-`Optional` models. -/
def fieldRaw (r : Rec PyVal) (f : FieldSpec) : Option PyVal :=
  match pyLookup r f.aliasName with
  | some w => w
  | none =>
    match pyLookup r f.name with
    | some w => w
    | none => none

/-- Validate one field, producing its alias-keyed entry of the model
instance, or a validation detail. -/
def validateField (r : Rec PyVal) (f : FieldSpec) :
    Except String (String × Option PyVal) :=
  match fieldRaw r f with
  | none => .ok (f.aliasName, none)
  | some v =>
    if checkType f.ftype v then .ok (f.aliasName, some v)
    else .error (f.aliasName ++ ": value does not satisfy the declared field type")

/-- pydantic `Model.model_validate(record)`: validate every declared field
in order; unknown keys of `record` are ignored.  The result doubles as
`model_dump(by_alias=True, exclude_none=False)`: the alias-keyed entries
of all fields, `null` included. -/
def model_validate (fields : List FieldSpec) (r : Rec PyVal) :
    Except String (Rec PyVal) :=
  match fields with
  | [] => .ok []
  | f :: fs => do
    let x ← validateField r f
    let rest ← model_validate fs r
    .ok (x :: rest)

/-! ### The extraction and reconciliation paths
(`DataExtractor.extract`, lines 535–630, and
`DataExtractor.extract_with_update`, lines 416–533) -/

/-- The provider response the extractor consumes: `output_parsed` (the
structured payload, as its by-alias dump) and `output_text` (raw text). -/
structure ProviderResponse where
  output_parsed : Option (Rec PyVal)
  output_text : Option String

/-- The two failure kinds of the extraction path, both raised as
`ValueError` in the source: no parseable payload (carrying the raw
output text), and schema validation failure (wrapping the validation
detail). -/
inductive ExtractError where
  | noResult (raw : Option String)
  | schemaMismatch (detail : String)
deriving DecidableEq

/-- `DataExtractor.extract` after the provider call: fail when the
response has no parsed payload, re-validate the payload against the
schema, and return the validated record together with its alias-keyed
flat projection `model_dump(by_alias=True, exclude_none=False)` (in this
embedding the validated record is already in that form). -/
def extract (fields : List FieldSpec) (resp : ProviderResponse) :
    Except ExtractError (Rec PyVal × Rec PyVal) :=
  match resp.output_parsed with
  | none => .error (.noResult resp.output_text)
  | some parsed =>
    match model_validate fields parsed with
    | .error e => .error (.schemaMismatch e)
    | .ok validated => .ok (validated, validated)

/-- `DataExtractor.extract_with_update` after the provider call:
normalize the prior record's field names, run the same validation path,
and diff the normalized prior record against the new flat projection. -/
def extract_with_update (fields : List FieldSpec) (existing : Rec PyVal)
    (resp : ProviderResponse) :
    Except ExtractError (Rec PyVal × Rec PyVal × ChangeSet PyVal) :=
  let normalized := normalize_existing_data (fields.map (·.aliasName)) existing
  match resp.output_parsed with
  | none => .error (.noResult resp.output_text)
  | some parsed =>
    match model_validate fields parsed with
    | .error e => .error (.schemaMismatch e)
    | .ok validated =>
      .ok (validated, validated, compare_records normalized validated)

/-! ### Targeted single-field extractors
(`extract_entity_name_only`, lines 286–340, and
`extract_entity_email_only`, lines 342–414) -/

/-- The field `extract_entity_name_only` targets: the first field whose
alias lowercases to `"name"` or ends in `"name"`. -/
def name_field (fields : List FieldSpec) : Option FieldSpec :=
  fields.find? (fun f =>
    pyLower f.aliasName == "name" || pyEndsWith (pyLower f.aliasName) "name")

/-- The field `extract_entity_email_only` targets: the first field whose
lowercased alias contains `"email"`. -/
def email_field (fields : List FieldSpec) : Option FieldSpec :=
  fields.find? (fun f => pyContains (pyLower f.aliasName) "email")

/-- `extract_entity_name_only`: raises `ValueError` when no name-like
field exists; afterwards every exception from the provider call is
swallowed and `None` is returned, as is a response without parsed
payload; otherwise the target field's value from the parsed payload.
The provider outcome (a response, or a raised exception) is passed in. -/
def extract_entity_name_only (fields : List FieldSpec)
    (provider : Except String ProviderResponse) :
    Except String (Option PyVal) :=
  match name_field fields with
  | none => .error "No name field found in schema"
  | some f =>
    match provider with
    | .error _ => .ok none
    | .ok resp =>
      match resp.output_parsed with
      | none => .ok none
      | some parsed => .ok (pyGet parsed f.aliasName)

/-- `extract_entity_email_only`: like the name variant, but a missing
email-like field logs a warning and returns `None` instead of raising. -/
def extract_entity_email_only (fields : List FieldSpec)
    (provider : Except String ProviderResponse) :
    Except String (Option PyVal) :=
  match email_field fields with
  | none => .ok none
  | some f =>
    match provider with
    | .error _ => .ok none
    | .ok resp =>
      match resp.output_parsed with
      | none => .ok none
      | some parsed => .ok (pyGet parsed f.aliasName)

/-! ### The provider request (`OpenAIClient.parse`, llm_utils.py 45–53,
and the prompt builders, extractor.py 121–157) -/

/-- One chat message. -/
structure Message where
  role : String
  content : String
deriving DecidableEq

/-- The structured-generation request `OpenAIClient.parse` issues. -/
structure ParseRequest where
  model : String
  input : List Message
  text_format : String
  temperature : ℚ
deriving DecidableEq

/-- `OpenAIClient.parse`: forwards to `responses.parse` with the client's
model and `temperature=0.0`, always. -/
def openai_parse (model : String) (input : List Message)
    (text_format : String) : ParseRequest :=
  { model := model, input := input, text_format := text_format,
    temperature := 0 }

/-- `_fields_block`: one line per field alias (descriptions, which only
add text after the alias, are not carried in this embedding). -/
def fields_block (schema_value : String) (fields : List FieldSpec) : String :=
  "Extract the following fields for the " ++ schema_value ++ " schema:\n"
    ++ String.intercalate "\n" (fields.map (fun f => "- " ++ f.aliasName))

/-- `_prompt_for`: the fields block followed by the raw text. -/
def prompt_for (schema_value : String) (fields : List FieldSpec)
    (text : String) : String :=
  fields_block schema_value fields ++ "\n\nText:\n" ++ text

/-- `_update_prompt_for`: the fields block, the rendered existing record,
the new text, and the fixed instructions sentence. -/
def update_prompt_for (schema_value : String) (fields : List FieldSpec)
    (text : String) (existing_rendered : String) : String :=
  fields_block schema_value fields
    ++ "\n\nEXISTING RECORD (Current Values):\n" ++ existing_rendered
    ++ "\n\nNEW TEXT TO PROCESS:\n" ++ text
    ++ "\n\nInstructions: Update the record by merging the existing values with any NEW, RELEVANT information from the text above. Only change fields that are clearly updated or enriched by the new text."

/-- The request `DataExtractor.extract` issues through `OpenAIClient`. -/
def extract_request (model system_prompt schema_value : String)
    (fields : List FieldSpec) (text : String) : ParseRequest :=
  openai_parse model
    [⟨"system", system_prompt⟩,
     ⟨"user", prompt_for schema_value fields text⟩]
    schema_value

/-- The request `DataExtractor.extract_with_update` issues through
`OpenAIClient`. -/
def update_request (model update_system_prompt schema_value : String)
    (fields : List FieldSpec) (text : String)
    (existing_rendered : String) : ParseRequest :=
  openai_parse model
    [⟨"system", update_system_prompt⟩,
     ⟨"user", update_prompt_for schema_value fields text existing_rendered⟩]
    schema_value

/-- The create path end to end, with the provider abstracted as a
function from requests to responses. -/
def extract_via_client (model system_prompt schema_value : String)
    (fields : List FieldSpec) (text : String)
    (provider : ParseRequest → ProviderResponse) :
    Except ExtractError (Rec PyVal × Rec PyVal) :=
  extract fields
    (provider (extract_request model system_prompt schema_value fields text))

/-- The update path end to end, with the provider abstracted. -/
def update_via_client (model update_system_prompt schema_value : String)
    (fields : List FieldSpec) (text : String) (existing : Rec PyVal)
    (existing_rendered : String)
    (provider : ParseRequest → ProviderResponse) :
    Except ExtractError (Rec PyVal × Rec PyVal × ChangeSet PyVal) :=
  extract_with_update fields existing
    (provider
      (update_request model update_system_prompt schema_value fields text
        existing_rendered))

/-! ### Schema registry data (llm_utils/schemas/, and
llm_utils/data_extractor/schemas.py for `USStateName`) -/

/-- Modelled from the spec: `llm_utils/schemas/common.py`, which declares
`USStateName`, is absent from src/; the values follow the identical draft
enum in `llm_utils/data_extractor/schemas.py` (lines 5–58), which the
spec describes as a revision of the same component. -/
def us_state_name_values : List String :=
  ["Alabama", "Alaska", "Arizona", "Arkansas", "California", "Colorado",
   "Connecticut", "Delaware", "Florida", "Georgia", "Hawaii", "Idaho",
   "Illinois", "Indiana", "Iowa", "Kansas", "Kentucky", "Louisiana",
   "Maine", "Maryland", "Massachusetts", "Michigan", "Minnesota",
   "Mississippi", "Missouri", "Montana", "Nebraska", "Nevada",
   "New Hampshire", "New Jersey", "New Mexico", "New York",
   "North Carolina", "North Dakota", "Ohio", "Oklahoma", "Oregon",
   "Pennsylvania", "Rhode Island", "South Carolina", "South Dakota",
   "Tennessee", "Texas", "Utah", "Vermont", "Virginia", "Washington",
   "West Virginia", "Wisconsin", "Wyoming", "Washington D.C.", "Israel",
   "Canada"]

/-- `NetworkCountry` (network.py). -/
def network_country_values : List String :=
  ["United States", "Canada", "United Kingdom", "Israel",
   "Israel/United States", "Israel/United Kingdom"]

/-- `NetworkInvestorType` (network.py). -/
def network_investor_type_values : List String :=
  ["Advisor", "Enterprise", "Family Office", "Individual",
   "Institutional", "Law Firm"]

/-- `DealFlowEvaluation` (deal_flow.py). -/
def deal_flow_evaluation_values : List String :=
  ["Pass", "Closed", "Company passed", "Did not close", "Due Diligence",
   "Evaluating", "Legal Docs", "Out of Business", "Term Sheet",
   "Waiting for Info", "Funded"]

/-- `DealFlowReferralSource` (deal_flow.py). -/
def deal_flow_referral_source_values : List String :=
  ["Angel Investor", "Broker", "Debt Fund", "Inbound",
   "Investment Banker", "LP", "Network", "Outbound", "VC Fund",
   "Paz Pina"]

/-- `DealFlowFinancingRound` (deal_flow.py). -/
def deal_flow_financing_round_values : List String :=
  ["Pre Seed", "Seed", "Series A", "Series B", "Series C", "Post Seed",
   "Bridge"]

/-- `Funds` (lp.py). -/
def funds_values : List String :=
  ["Lioncrest", "Prospeq", "All"]

/-- `SentStatus` (lp.py). -/
def sent_status_values : List String :=
  ["Sent", "In Communication", "Stuck", "Need to Send"]

/-- Modelled from the spec: `YesNo` is declared in the absent
`llm_utils/schemas/common.py`; a yes/no enumeration is assumed.  No claim
depends on its members. -/
def yes_no_values : List String :=
  ["Yes", "No"]

/-- `Network` (network.py): field names, aliases and types. -/
def network_fields : List FieldSpec :=
  [⟨"name", "Name", .str⟩,
   ⟨"linkedin", "LinkedIn", .str⟩,
   ⟨"email", "Email", .str⟩,
   ⟨"phone", "Phone", .str⟩,
   ⟨"company", "Company", .str⟩,
   ⟨"title", "Title", .str⟩,
   ⟨"status", "Status", .str⟩,
   ⟨"country", "Country", .enum network_country_values⟩,
   ⟨"state", "State", .enum us_state_name_values⟩,
   ⟨"city", "City", .str⟩,
   ⟨"investor_type", "Investor Type", .enum network_investor_type_values⟩,
   ⟨"notes", "Notes", .str⟩,
   ⟨"date", "Date", .str⟩,
   ⟨"date_last_met", "Date (Last Met)", .str⟩,
   ⟨"date_last_contact", "Date (Last Contact)", .str⟩]

/-- `DealFlow` (deal_flow.py): field names, aliases and types. -/
def deal_flow_fields : List FieldSpec :=
  [⟨"name", "Company name", .str⟩,
   ⟨"ceo_primary_contact", "CEO/ Primary Contact", .str⟩,
   ⟨"email", "Email", .str⟩,
   ⟨"date_sourced", "Date Sourced", .str⟩,
   ⟨"revenue_run_rate", "Revenue Run Rate", .int⟩,
   ⟨"financing_round", "Financing Round", .enum deal_flow_financing_round_values⟩,
   ⟨"evaluation", "Evaluation", .enum deal_flow_evaluation_values⟩,
   ⟨"state", "State", .enum us_state_name_values⟩,
   ⟨"city", "City", .str⟩,
   ⟨"referral_source", "Referral Source", .listEnum deal_flow_referral_source_values⟩,
   ⟨"name_of_referral", "Name of Referral", .str⟩,
   ⟨"sourced_by", "Sourced By", .listStr⟩,
   ⟨"dei", "DEI", .enum yes_no_values⟩,
   ⟨"equity_debt", "Equity/ Debt", .str⟩,
   ⟨"notes", "Notes", .str⟩,
   ⟨"files", "Files", .str⟩]

/-- `LPMainDashboard` (lp.py): field names, aliases and types. -/
def lp_fields : List FieldSpec :=
  [⟨"name", "Name", .str⟩,
   ⟨"amount", "Amount $", .str⟩,
   ⟨"email", "Email", .str⟩,
   ⟨"notes", "Notes", .str⟩,
   ⟨"status", "Status", .str⟩,
   ⟨"fund", "Fund", .enum funds_values⟩,
   ⟨"sent_email", "Sent Email?", .enum sent_status_values⟩,
   ⟨"follow_up_date", "Follow Up date", .str⟩,
   ⟨"upcoming_meeting", "Upcoming Meeting", .str⟩,
   ⟨"last_reach_out", "Last Reach Out", .str⟩,
   ⟨"country", "Country", .str⟩,
   ⟨"state", "State", .enum us_state_name_values⟩,
   ⟨"city", "City", .str⟩]

/-- `VCFund` (vc_fund.py): field names, aliases and types. -/
def vc_fund_fields : List FieldSpec :=
  [⟨"name", "Name", .str⟩,
   ⟨"stage", "Stage", .str⟩,
   ⟨"date", "Date", .str⟩,
   ⟨"name_of_contact", "Name of Contact", .str⟩,
   ⟨"title", "Title", .str⟩,
   ⟨"email", "Email", .str⟩,
   ⟨"phone", "Phone", .str⟩,
   ⟨"country", "Country", .str⟩,
   ⟨"state", "State", .enum us_state_name_values⟩,
   ⟨"industry_focus", "Industry Focus", .str⟩,
   ⟨"check_size", "Check Size", .str⟩,
   ⟨"linkedin", "LinkedIn", .str⟩,
   ⟨"notes", "Notes", .str⟩]

/-! ### State-code expansion (`_SYSTEM_PROMPT`, extractor.py lines 66–72) -/

/-- The authoritative `US STATE CODE → FULL NAME` mapping embedded in
`_SYSTEM_PROMPT` (line 72): the 50 states plus DC. -/
def us_state_code_table : List (String × String) :=
  [("AL", "Alabama"), ("AK", "Alaska"), ("AZ", "Arizona"),
   ("AR", "Arkansas"), ("CA", "California"), ("CO", "Colorado"),
   ("CT", "Connecticut"), ("DE", "Delaware"), ("FL", "Florida"),
   ("GA", "Georgia"), ("HI", "Hawaii"), ("ID", "Idaho"),
   ("IL", "Illinois"), ("IN", "Indiana"), ("IA", "Iowa"),
   ("KS", "Kansas"), ("KY", "Kentucky"), ("LA", "Louisiana"),
   ("ME", "Maine"), ("MD", "Maryland"), ("MA", "Massachusetts"),
   ("MI", "Michigan"), ("MN", "Minnesota"), ("MS", "Mississippi"),
   ("MO", "Missouri"), ("MT", "Montana"), ("NE", "Nebraska"),
   ("NV", "Nevada"), ("NH", "New Hampshire"), ("NJ", "New Jersey"),
   ("NM", "New Mexico"), ("NY", "New York"), ("NC", "North Carolina"),
   ("ND", "North Dakota"), ("OH", "Ohio"), ("OK", "Oklahoma"),
   ("OR", "Oregon"), ("PA", "Pennsylvania"), ("RI", "Rhode Island"),
   ("SC", "South Carolina"), ("SD", "South Dakota"), ("TN", "Tennessee"),
   ("TX", "Texas"), ("UT", "Utah"), ("VT", "Vermont"),
   ("VA", "Virginia"), ("WA", "Washington"), ("WV", "West Virginia"),
   ("WI", "Wisconsin"), ("WY", "Wyoming"), ("DC", "Washington D.C.")]

/-- Modelled from the spec: the deterministic `"City, ST"` expansion that
`_SYSTEM_PROMPT` rules D.7–D.9 mandate (the conversion itself is carried
out by the external provider under those instructions, not by code in
src/): look the 2-letter code up in the prompt's table; a code outside
the table yields a null state. -/
def expand_state_code (code : String) : Option String :=
  (us_state_code_table.find? (fun p => p.1 == code)).map Prod.snd

/-- Modelled from the spec: a location written `"City, XX"` yields the
city verbatim and the expanded state. -/
def expand_location (city code : String) : String × Option String :=
  (city, expand_state_code code)

/-! ### Concrete inputs used by the claims -/

/-- The prior flat record of the spec's reconciliation example. -/
def c1_old : Rec String :=
  [("Email", some "a@x.com"), ("Notes", some "foo")]

/-- The new flat record of the spec's reconciliation example. -/
def c1_new : Rec String :=
  [("Email", some "a@x.com"), ("Notes", some "foo bar"),
   ("City", some "Austin")]

/-- A flat record whose only key is outside every schema's alias set. -/
def c3_bad_record : Rec PyVal :=
  [("Bogus", some (.scalar (.str "x")))]

/-- A parsed payload holding an out-of-enum value for `DealFlow`'s strict
`Evaluation` enum. -/
def c2_bad_payload : Rec PyVal :=
  [("Evaluation", some (.scalar (.str "Maybe")))]

/-- A schema with no field whose alias matches the name convention. -/
def c4_no_name_fields : List FieldSpec :=
  [⟨"email", "Email", .str⟩]

/-- Whether an `Except` computation succeeded (no exception raised). -/
def exceptOk {ε α : Type} : Except ε α → Bool
  | .ok _ => true
  | .error _ => false

instance instDecEqExcept {ε α : Type} [DecidableEq ε] [DecidableEq α] :
    DecidableEq (Except ε α) := fun a b =>
  match a, b with
  | .ok x, .ok y =>
    if h : x = y then isTrue (by rw [h])
    else isFalse (fun hc => h (Except.ok.inj hc))
  | .error x, .error y =>
    if h : x = y then isTrue (by rw [h])
    else isFalse (fun hc => h (Except.error.inj hc))
  | .ok _, .error _ => isFalse (fun hc => Except.noConfusion hc)
  | .error _, .ok _ => isFalse (fun hc => Except.noConfusion hc)

/-- A parsed payload filling only the `Email` field of the LP schema. -/
def c7_parsed : Rec PyVal :=
  [("Email", some (.scalar (.str "a@x.com")))]

/-! ## Theorems -/

theorem pyMem_iff_mem_keys {V : Type} (d : PyDict V) (k : String) :
    pyMem d k = true ↔ k ∈ d.map Prod.fst := by
  simp [pyMem, List.any_eq_true, List.mem_map, beq_iff_eq]

theorem pyLookup_eq_none_of_not_mem {V : Type} (d : PyDict V) (k : String)
    (h : pyMem d k = false) : pyLookup d k = none := by
  simp only [pyLookup, Option.map_eq_none', List.find?_eq_none, beq_iff_eq]
  intro p hp
  intro hk
  have : pyMem d k = true := by
    refine (pyMem_iff_mem_keys d k).2 ?_
    exact List.mem_map.2 ⟨p, hp, hk⟩
  simp [this] at h

theorem pyMem_of_pyLookup_eq_some {V : Type} (d : PyDict V) (k : String)
    (v : V) (h : pyLookup d k = some v) : pyMem d k = true := by
  by_contra hc
  have hf : pyMem d k = false := by
    cases hm : pyMem d k
    · rfl
    · exact absurd hm hc
  rw [pyLookup_eq_none_of_not_mem d k hf] at h
  exact Option.noConfusion h

theorem mem_allKeys_iff {V : Type} (old new : Rec V) (k : String) :
    k ∈ allKeys old new ↔ pyMem old k = true ∨ pyMem new k = true := by
  simp only [allKeys, List.mem_dedup, List.mem_append, pyMem_iff_mem_keys]

/-- Looking a key up in a `filterMap`-built association list recovers the
generating function at that key. -/
theorem pyLookup_filterMap {V : Type} (ks : List String)
    (g : String → Option V) (k : String) :
    pyLookup (ks.filterMap (fun a => (g a).map (fun e => (a, e)))) k
      = if k ∈ ks then g k else none := by
  induction ks with
  | nil => simp [pyLookup]
  | cons a ks ih =>
    by_cases hak : a = k
    · subst hak
      cases hg : g a with
      | none =>
        simp only [List.filterMap_cons, hg, Option.map_none']
        rw [ih]
        by_cases hk : a ∈ ks
        · simp [hk, hg]
        · simp [hk]
      | some e =>
        simp only [List.filterMap_cons, hg, Option.map_some']
        simp [pyLookup, List.find?, hg]
    · have hka : ¬ k = a := fun h => hak h.symm
      cases hg : g a with
      | none =>
        simp only [List.filterMap_cons, hg, Option.map_none']
        rw [ih]
        simp [List.mem_cons, hka]
      | some e =>
        simp only [List.filterMap_cons, hg, Option.map_some']
        have hne : (a == k) = false := by
          simp [hak]
        simp only [pyLookup, List.find?, hne]
        rw [← pyLookup, ih]
        simp [List.mem_cons, hka]

theorem compare_changes_lookup {V : Type} [DecidableEq V]
    (old new : Rec V) (k : String) :
    pyLookup (compare_records old new).changes k
      = if k ∈ allKeys old new then changeAt old new k else none := by
  simp only [compare_records]
  exact pyLookup_filterMap (allKeys old new) (changeAt old new) k

theorem mem_added_iff {V : Type} [DecidableEq V] (old new : Rec V)
    (k : String) :
    k ∈ (compare_records old new).added_fields
      ↔ pyMem old k = false ∧ pyMem new k = true := by
  simp only [compare_records, List.mem_filter, mem_allKeys_iff,
    Bool.not_eq_true']
  constructor
  · rintro ⟨h1, h2⟩
    refine ⟨h2, ?_⟩
    rcases h1 with h | h
    · rw [h2] at h
      exact absurd h (by simp)
    · exact h
  · rintro ⟨h1, h2⟩
    exact ⟨Or.inr h2, h1⟩

theorem mem_updated_iff {V : Type} [DecidableEq V] (old new : Rec V)
    (k : String) :
    k ∈ (compare_records old new).updated_fields
      ↔ pyMem old k = true ∧ pyGet old k ≠ pyGet new k := by
  simp only [compare_records, List.mem_filter, mem_allKeys_iff,
    Bool.and_eq_true, decide_eq_true_eq]
  constructor
  · rintro ⟨_, h2, h3⟩
    exact ⟨h2, h3⟩
  · rintro ⟨h1, h2⟩
    exact ⟨Or.inl h1, h1, h2⟩

theorem mem_unchanged_iff {V : Type} [DecidableEq V] (old new : Rec V)
    (k : String) :
    k ∈ (compare_records old new).unchanged_fields
      ↔ pyMem old k = true ∧ pyGet old k = pyGet new k := by
  simp only [compare_records, List.mem_filter, mem_allKeys_iff,
    Bool.and_eq_true, decide_eq_true_eq]
  constructor
  · rintro ⟨_, h2, h3⟩
    exact ⟨h2, h3⟩
  · rintro ⟨h1, h2⟩
    exact ⟨Or.inl h1, h1, h2⟩

theorem total_changes_eq {V : Type} [DecidableEq V] (old new : Rec V) :
    (compare_records old new).total_changes
      = (compare_records old new).updated_fields.length
        + (compare_records old new).added_fields.length := by
  simp [compare_records]

/-- C1: for every prior and new flat record, `_compare_records`
classifies each key present only in the new record as added, each key
present in both records whose values differ as updated (recording the
old and new value in `changes`), and each key whose value is identical
as unchanged, with `total_changes` equal to the count of added plus
updated keys; in particular, for prior
`{"Email": "a@x.com", "Notes": "foo"}` and new
`{"Email": "a@x.com", "Notes": "foo bar", "City": "Austin"}` it reports
added = City, updated = Notes, unchanged = Email, total_changes = 2. -/
theorem c1_reconciliation_diff :
    (∀ (V : Type) (_ : DecidableEq V) (old new : Rec V) (k : String),
      (pyMem new k = true → pyMem old k = false →
        k ∈ (compare_records old new).added_fields ∧
        pyLookup (compare_records old new).changes k
          = some ⟨none, pyGet new k⟩) ∧
      (pyMem old k = true → pyMem new k = true →
        pyGet old k ≠ pyGet new k →
          k ∈ (compare_records old new).updated_fields ∧
          pyLookup (compare_records old new).changes k
            = some ⟨pyGet old k, pyGet new k⟩) ∧
      (pyMem old k = true → pyMem new k = true →
        pyGet old k = pyGet new k →
          k ∈ (compare_records old new).unchanged_fields) ∧
      (compare_records old new).total_changes
        = (compare_records old new).added_fields.length
          + (compare_records old new).updated_fields.length) ∧
    (compare_records c1_old c1_new).added_fields = ["City"] ∧
    (compare_records c1_old c1_new).updated_fields = ["Notes"] ∧
    (compare_records c1_old c1_new).unchanged_fields = ["Email"] ∧
    (compare_records c1_old c1_new).total_changes = 2 := by
  refine ⟨?_, by decide, by decide, by decide, by decide⟩
  intro V _ old new k
  refine ⟨?_, ?_, ?_, ?_⟩
  · intro hnew hold
    refine ⟨(mem_added_iff old new k).2 ⟨hold, hnew⟩, ?_⟩
    rw [compare_changes_lookup]
    have hk : k ∈ allKeys old new := (mem_allKeys_iff old new k).2 (Or.inr hnew)
    simp [hk, changeAt, hold]
  · intro hold _ hne
    refine ⟨(mem_updated_iff old new k).2 ⟨hold, hne⟩, ?_⟩
    rw [compare_changes_lookup]
    have hk : k ∈ allKeys old new := (mem_allKeys_iff old new k).2 (Or.inl hold)
    simp [hk, changeAt, hold, hne]
  · intro hold _ heq
    exact (mem_unchanged_iff old new k).2 ⟨hold, heq⟩
  · rw [total_changes_eq]
    omega

/-- Witness for C1 at the spec's concrete example. -/
theorem c1_reconciliation_diff_witness :
    "City" ∈ (compare_records c1_old c1_new).added_fields ∧
    "Notes" ∈ (compare_records c1_old c1_new).updated_fields ∧
    "Email" ∈ (compare_records c1_old c1_new).unchanged_fields := by
  have h := c1_reconciliation_diff.1 String inferInstance c1_old c1_new
  refine ⟨((h "City").1 (by decide) (by decide)).1,
    ((h "Notes").2.1 (by decide) (by decide) (by decide)).1,
    (h "Email").2.2.1 (by decide) (by decide) (by decide)⟩

/-- C10: a key present only in the prior record is treated through
`.get`, which yields `None` for the new record: when its prior value is
non-null it is classified as updated with new value `None` (recorded in
`changes` and counted in `total_changes`); when its prior value is null
it is classified as unchanged.  Every prior key is classified into one of
the three categories — the `ChangeSet` structure has no removed
category and drops nothing. -/
theorem c10_prior_only_keys :
    ∀ (V : Type) (_ : DecidableEq V) (old new : Rec V) (k : String),
      (∀ v : V, pyLookup old k = some (some v) → pyMem new k = false →
        k ∈ (compare_records old new).updated_fields ∧
        pyLookup (compare_records old new).changes k
          = some ⟨some v, none⟩ ∧
        (compare_records old new).total_changes
          = (compare_records old new).updated_fields.length
            + (compare_records old new).added_fields.length) ∧
      (pyLookup old k = some none → pyMem new k = false →
        k ∈ (compare_records old new).unchanged_fields) ∧
      (pyMem old k = true →
        k ∈ (compare_records old new).added_fields ∨
        k ∈ (compare_records old new).updated_fields ∨
        k ∈ (compare_records old new).unchanged_fields) := by
  intro V _ old new k
  refine ⟨?_, ?_, ?_⟩
  · intro v hv hnew
    have hold : pyMem old k = true := pyMem_of_pyLookup_eq_some old k _ hv
    have hgo : pyGet old k = some v := by
      simp [pyGet, hv]
    have hgn : pyGet new k = none := by
      simp [pyGet, pyLookup_eq_none_of_not_mem new k hnew]
    have hne : pyGet old k ≠ pyGet new k := by
      rw [hgo, hgn]
      exact Option.noConfusion
    refine ⟨(mem_updated_iff old new k).2 ⟨hold, hne⟩, ?_, total_changes_eq old new⟩
    rw [compare_changes_lookup]
    have hk : k ∈ allKeys old new := (mem_allKeys_iff old new k).2 (Or.inl hold)
    simp only [hk, if_true, changeAt, hold]
    simp [hne, hgo, hgn]
  · intro hv hnew
    have hold : pyMem old k = true := pyMem_of_pyLookup_eq_some old k _ hv
    have hgo : pyGet old k = none := by
      simp [pyGet, hv]
    have hgn : pyGet new k = none := by
      simp [pyGet, pyLookup_eq_none_of_not_mem new k hnew]
    exact (mem_unchanged_iff old new k).2 ⟨hold, hgo.trans hgn.symm⟩
  · intro hold
    by_cases heq : pyGet old k = pyGet new k
    · exact Or.inr (Or.inr ((mem_unchanged_iff old new k).2 ⟨hold, heq⟩))
    · exact Or.inr (Or.inl ((mem_updated_iff old new k).2 ⟨hold, heq⟩))

/-- Witness for C10: prior `{"Fund": "Lioncrest", "Notes": null}` against
new `{}`: Fund becomes updated-to-null, Notes stays unchanged. -/
theorem c10_prior_only_keys_witness :
    "Fund" ∈ (compare_records
      [("Fund", some "Lioncrest"), ("Notes", none)]
      ([] : Rec String)).updated_fields ∧
    "Notes" ∈ (compare_records
      [("Fund", some "Lioncrest"), ("Notes", none)]
      ([] : Rec String)).unchanged_fields := by
  have h1 := c10_prior_only_keys String inferInstance
    [("Fund", some "Lioncrest"), ("Notes", none)] ([] : Rec String) "Fund"
  have h2 := c10_prior_only_keys String inferInstance
    [("Fund", some "Lioncrest"), ("Notes", none)] ([] : Rec String) "Notes"
  exact ⟨(h1.1 "Lioncrest" (by decide) (by decide)).1,
    h2.2.1 (by decide) (by decide)⟩

/-- A successful `model_validate` yields exactly the alias-keyed entries
of all declared fields, and certifies every provided value well-typed. -/
theorem model_validate_ok_shape (fields : List FieldSpec) (r : Rec PyVal)
    (out : Rec PyVal) (h : model_validate fields r = .ok out) :
    out = fields.map (fun f => (f.aliasName, fieldRaw r f)) ∧
      ∀ g ∈ fields, ∀ v, fieldRaw r g = some v → checkType g.ftype v = true := by
  induction fields generalizing out with
  | nil =>
    simp only [model_validate] at h
    injection h with h
    subst h
    exact ⟨rfl, by simp⟩
  | cons f fs ih =>
    simp only [model_validate, bind, Except.bind] at h
    cases hvf : validateField r f with
    | error e =>
      rw [hvf] at h
      exact absurd h (fun hc => Except.noConfusion hc)
    | ok x =>
      rw [hvf] at h
      cases hmv : model_validate fs r with
      | error e =>
        rw [hmv] at h
        exact absurd h (fun hc => Except.noConfusion hc)
      | ok rest =>
        rw [hmv] at h
        injection h with h
        subst h
        obtain ⟨hr, hc⟩ := ih rest hmv
        have hx : x = (f.aliasName, fieldRaw r f) ∧
            ∀ v, fieldRaw r f = some v → checkType f.ftype v = true := by
          cases hraw : fieldRaw r f with
          | none =>
            simp only [validateField, hraw] at hvf
            injection hvf with hvf
            exact ⟨hvf.symm, by simp⟩
          | some v =>
            simp only [validateField, hraw] at hvf
            cases hct : checkType f.ftype v with
            | false =>
              rw [hct] at hvf
              simp at hvf
            | true =>
              rw [hct] at hvf
              simp only [if_true] at hvf
              injection hvf with hvf
              refine ⟨hvf.symm, ?_⟩
              intro w hw
              injection hw with hw
              rw [← hw]
              exact hct
        constructor
        · rw [List.map_cons, ← hr, hx.1]
        · intro g hg v hv
          rcases List.mem_cons.1 hg with hgf | hgfs
          · subst hgf
            exact hx.2 v hv
          · exact hc g hgfs v hv

/-- When every provided field value is well-typed, `model_validate`
succeeds with the full alias-keyed projection. -/
theorem model_validate_ok_of_valid (fields : List FieldSpec) (r : Rec PyVal)
    (h : ∀ g ∈ fields, ∀ v, fieldRaw r g = some v → checkType g.ftype v = true) :
    model_validate fields r
      = .ok (fields.map (fun f => (f.aliasName, fieldRaw r f))) := by
  induction fields with
  | nil => rfl
  | cons f fs ih =>
    have hf : validateField r f = .ok (f.aliasName, fieldRaw r f) := by
      cases hraw : fieldRaw r f with
      | none => simp [validateField, hraw]
      | some v =>
        have := h f (List.mem_cons_self f fs) v hraw
        simp [validateField, hraw, this]
    have hfs : model_validate fs r
        = .ok (fs.map (fun f => (f.aliasName, fieldRaw r f))) := by
      refine ih ?_
      intro g hg v hv
      exact h g (List.mem_cons_of_mem f hg) v hv
    simp [model_validate, bind, Except.bind, hf, hfs]

/-- A single ill-typed provided value makes `model_validate` fail. -/
theorem model_validate_fails_of_invalid (fields : List FieldSpec)
    (r : Rec PyVal) (f : FieldSpec) (v : PyVal) (hf : f ∈ fields)
    (hraw : fieldRaw r f = some v) (hct : checkType f.ftype v = false) :
    exceptOk (model_validate fields r) = false := by
  cases h : model_validate fields r with
  | error e => rfl
  | ok out =>
    exfalso
    have := (model_validate_ok_shape fields r out h).2 f hf v hraw
    rw [hct] at this
    exact Bool.noConfusion this

/-- C2: `extract` raises the no-result error — carrying the provider's
raw textual output — when the provider call completes without a parsed
structured payload; it raises the schema-mismatch error wrapping the raw
validation detail when the payload fails strict validation; and in both
failure cases no record of any kind is returned to the caller. -/
theorem c2_extract_failures :
    (∀ (fields : List FieldSpec) (raw : Option String),
      extract fields ⟨none, raw⟩ = .error (.noResult raw)) ∧
    (∀ (fields : List FieldSpec) (parsed : Rec PyVal) (raw : Option String)
      (e : String),
      model_validate fields parsed = .error e →
        extract fields ⟨some parsed, raw⟩ = .error (.schemaMismatch e)) ∧
    (∀ (fields : List FieldSpec) (resp : ProviderResponse)
      (err : ExtractError),
      extract fields resp = .error err →
        ∀ out, extract fields resp ≠ .ok out) := by
  refine ⟨fun fields raw => rfl, ?_, ?_⟩
  · intro fields parsed raw e he
    simp [extract, he]
  · intro fields resp err herr out
    rw [herr]
    exact fun h => Except.noConfusion h

/-- Witness for C2: an out-of-enum `Evaluation` value fails validation
and `extract` surfaces it as a schema mismatch wrapping the detail. -/
theorem c2_extract_failures_witness :
    extract deal_flow_fields ⟨some c2_bad_payload, some "raw text"⟩
      = .error (.schemaMismatch
          "Evaluation: value does not satisfy the declared field type")
      ∧ extract deal_flow_fields ⟨none, some "raw text"⟩
          = .error (.noResult (some "raw text")) := by
  refine ⟨c2_extract_failures.2.1 deal_flow_fields c2_bad_payload
    (some "raw text") _ (by decide),
    c2_extract_failures.1 deal_flow_fields (some "raw text")⟩

/-- C3 counterexample: a flat record whose only key is outside the
DealFlow schema's alias set (and field-name set) is not rejected by
validation — pydantic's default is to ignore unknown keys, so
`model_validate` succeeds. -/
theorem c3_counterexample :
    ("Bogus" ∉ deal_flow_fields.map (·.aliasName)) ∧
    ("Bogus" ∉ deal_flow_fields.map (·.name)) ∧
    exceptOk (model_validate deal_flow_fields c3_bad_record) = true := by
  exact ⟨by decide, by decide, by decide⟩

/-- C3 (amended): validation ignores — rather than rejects — keys outside
the schema's alias set: a successful validation's output carries exactly
the schema aliases, so out-of-schema keys are dropped and never reach the
caller; an enum-typed field whose provided value is not a declared member
(and not null) is rejected; and in any record that validation lets
through, every enum-typed field's value is null or a declared member. -/
theorem c3_validation_enum_and_keys :
    ∀ (fields : List FieldSpec) (r : Rec PyVal),
      (∀ out, model_validate fields r = .ok out →
        out.map Prod.fst = fields.map (·.aliasName)) ∧
      (∀ f ∈ fields, ∀ legal v, f.ftype = .enum legal →
        fieldRaw r f = some v → checkType (.enum legal) v = false →
        exceptOk (model_validate fields r) = false) ∧
      (∀ out, model_validate fields r = .ok out →
        ∀ f ∈ fields, ∀ legal, f.ftype = .enum legal →
          fieldRaw r f = none ∨
          ∃ s, fieldRaw r f = some (.scalar (.str s)) ∧ s ∈ legal) := by
  intro fields r
  refine ⟨?_, ?_, ?_⟩
  · intro out h
    rw [(model_validate_ok_shape fields r out h).1]
    simp
  · intro f hf legal v hty hraw hct
    refine model_validate_fails_of_invalid fields r f v hf hraw ?_
    rw [hty]
    exact hct
  · intro out h f hf legal hty
    cases hraw : fieldRaw r f with
    | none => exact Or.inl rfl
    | some v =>
      refine Or.inr ?_
      have hct := (model_validate_ok_shape fields r out h).2 f hf v hraw
      rw [hty] at hct
      cases v with
      | scalar x =>
        cases x with
        | str s =>
          refine ⟨s, rfl, ?_⟩
          simpa [checkType, List.contains] using hct
        | int n => simp [checkType] at hct
      | list xs => simp [checkType] at hct

/-- Witness for C3 (amended), at the DealFlow schema: a record passing
validation projects to exactly the schema aliases; an out-of-enum
`Evaluation` value is rejected. -/
theorem c3_validation_enum_and_keys_witness :
    (deal_flow_fields.map
        (fun f => (f.aliasName, fieldRaw c3_bad_record f))).map Prod.fst
      = deal_flow_fields.map (·.aliasName) ∧
    exceptOk (model_validate deal_flow_fields c2_bad_payload) = false := by
  have h1 := (c3_validation_enum_and_keys deal_flow_fields c3_bad_record).1
    (deal_flow_fields.map (fun f => (f.aliasName, fieldRaw c3_bad_record f)))
    (by decide)
  have h2 := (c3_validation_enum_and_keys deal_flow_fields c2_bad_payload).2.1
    ⟨"evaluation", "Evaluation", .enum deal_flow_evaluation_values⟩
    (by decide) deal_flow_evaluation_values (.scalar (.str "Maybe"))
    rfl (by decide) (by decide)
  exact ⟨h1, h2⟩

/-- C7: every successful run of the create path (`extract`) or the
update path (`extract_with_update`) returns an alias-keyed flat
projection whose keys are exactly the schema's field aliases, and every
field the extraction left absent appears in it bound to null — never
dropped. -/
theorem c7_projection_includes_nulls :
    ∀ (fields : List FieldSpec) (parsed : Rec PyVal) (raw : Option String),
      (∀ validated flat,
        extract fields ⟨some parsed, raw⟩ = .ok (validated, flat) →
          flat.map Prod.fst = fields.map (·.aliasName) ∧
          ∀ f ∈ fields, fieldRaw parsed f = none → (f.aliasName, none) ∈ flat) ∧
      (∀ existing validated flat cs,
        extract_with_update fields existing ⟨some parsed, raw⟩
            = .ok (validated, flat, cs) →
          flat.map Prod.fst = fields.map (·.aliasName) ∧
          ∀ f ∈ fields, fieldRaw parsed f = none → (f.aliasName, none) ∈ flat) := by
  intro fields parsed raw
  have key : ∀ out, model_validate fields parsed = .ok out →
      out.map Prod.fst = fields.map (·.aliasName) ∧
      ∀ f ∈ fields, fieldRaw parsed f = none → (f.aliasName, none) ∈ out := by
    intro out h
    have hshape := (model_validate_ok_shape fields parsed out h).1
    constructor
    · rw [hshape]
      simp
    · intro f hf hraw
      rw [hshape]
      refine List.mem_map.2 ⟨f, hf, ?_⟩
      rw [hraw]
  constructor
  · intro validated flat h
    simp only [extract] at h
    cases hmv : model_validate fields parsed with
    | error e =>
      rw [hmv] at h
      exact absurd h (fun hc => Except.noConfusion hc)
    | ok out =>
      rw [hmv] at h
      injection h with h
      have hv : validated = out ∧ flat = out := by
        have h1 := congrArg Prod.fst h
        have h2 := congrArg Prod.snd h
        exact ⟨h1.symm, h2.symm⟩
      rw [hv.2]
      exact key out hmv
  · intro existing validated flat cs h
    simp only [extract_with_update] at h
    cases hmv : model_validate fields parsed with
    | error e =>
      rw [hmv] at h
      exact absurd h (fun hc => Except.noConfusion hc)
    | ok out =>
      rw [hmv] at h
      injection h with h
      have hflat : flat = out := by
        have h2 := congrArg (fun p => p.2.1) h
        exact h2.symm
      rw [hflat]
      exact key out hmv

/-- Witness for C7: extracting only an email against the LP schema still
projects all 13 aliases, with `City` present and null. -/
theorem c7_projection_includes_nulls_witness :
    (lp_fields.map (fun f => (f.aliasName, fieldRaw c7_parsed f))).map
        Prod.fst
      = lp_fields.map (·.aliasName) ∧
    (("City" : String), (none : Option PyVal))
      ∈ lp_fields.map (fun f => (f.aliasName, fieldRaw c7_parsed f)) := by
  have h := (c7_projection_includes_nulls lp_fields c7_parsed none).1
    (lp_fields.map (fun f => (f.aliasName, fieldRaw c7_parsed f)))
    (lp_fields.map (fun f => (f.aliasName, fieldRaw c7_parsed f)))
    (by decide)
  exact ⟨h.1, h.2 ⟨"city", "City", .str⟩ (by decide) (by decide)⟩

/-- In an association list with distinct keys, membership determines the
lookup result. -/
theorem pyLookup_eq_of_mem_nodup {V : Type} (d : PyDict V) (k : String)
    (v : V) (hnd : (d.map Prod.fst).Nodup) (hmem : (k, v) ∈ d) :
    pyLookup d k = some v := by
  induction d with
  | nil => exact absurd hmem (List.not_mem_nil _)
  | cons p t ih =>
    rcases List.mem_cons.1 hmem with hph | hpt
    · rw [← hph]
      simp [pyLookup, List.find?]
    · by_cases hk : p.1 = k
      · exfalso
        have : k ∈ t.map Prod.fst := List.mem_map.2 ⟨(k, v), hpt, rfl⟩
        rw [List.map_cons] at hnd
        rw [hk] at hnd
        exact (List.nodup_cons.1 hnd).1 this
      · have hne : (p.1 == k) = false := by
          simp [hk]
        simp only [pyLookup, List.find?, hne]
        rw [← pyLookup]
        rw [List.map_cons] at hnd
        exact ih (List.nodup_cons.1 hnd).2 hpt

/-- C4 counterexample: on a schema with no field whose alias matches the
name convention, `extract_entity_name_only` raises (`ValueError`) instead
of returning null. -/
theorem c4_counterexample :
    name_field c4_no_name_fields = none ∧
    extract_entity_name_only c4_no_name_fields
        (.ok ⟨none, none⟩)
      = .error "No name field found in schema" := by
  exact ⟨by decide, by decide⟩

/-- C4 (amended): the email-only extractor returns null on provider error
or when no email-like field exists, and never raises; the name-only
extractor returns null on provider error but raises a `ValueError` when
the schema has no name-like field — a branch that is unreachable for the
four registered schemas, each of which has both a name-matching and an
email-matching field, so neither extractor ever raises for a registered
schema. -/
theorem c4_targeted_extractors :
    (∀ (fields : List FieldSpec) (p : Except String ProviderResponse),
      email_field fields = none →
        extract_entity_email_only fields p = .ok none) ∧
    (∀ (fields : List FieldSpec) (p : Except String ProviderResponse),
      exceptOk (extract_entity_email_only fields p) = true) ∧
    (∀ (fields : List FieldSpec) (e : String),
      extract_entity_email_only fields (.error e) = .ok none) ∧
    (∀ (fields : List FieldSpec) (e : String) (f : FieldSpec),
      name_field fields = some f →
        extract_entity_name_only fields (.error e) = .ok none) ∧
    (∀ (fields : List FieldSpec) (p : Except String ProviderResponse),
      name_field fields ≠ none →
        exceptOk (extract_entity_name_only fields p) = true) ∧
    (name_field network_fields ≠ none ∧ email_field network_fields ≠ none ∧
      name_field deal_flow_fields ≠ none ∧
      email_field deal_flow_fields ≠ none ∧
      name_field lp_fields ≠ none ∧ email_field lp_fields ≠ none ∧
      name_field vc_fund_fields ≠ none ∧
      email_field vc_fund_fields ≠ none) := by
  refine ⟨?_, ?_, ?_, ?_, ?_, ?_⟩
  · intro fields p h
    simp [extract_entity_email_only, h]
  · intro fields p
    unfold extract_entity_email_only
    cases email_field fields with
    | none => rfl
    | some f =>
      cases p with
      | error e => rfl
      | ok resp =>
        obtain ⟨op, ot⟩ := resp
        cases op with
        | none => rfl
        | some parsed => rfl
  · intro fields e
    unfold extract_entity_email_only
    cases email_field fields with
    | none => rfl
    | some f => rfl
  · intro fields e f h
    simp [extract_entity_name_only, h]
  · intro fields p h
    unfold extract_entity_name_only
    cases hnf : name_field fields with
    | none => exact absurd hnf h
    | some f =>
      cases p with
      | error e => rfl
      | ok resp =>
        obtain ⟨op, ot⟩ := resp
        cases op with
        | none => rfl
        | some parsed => rfl
  · exact ⟨by decide, by decide, by decide, by decide, by decide,
      by decide, by decide, by decide⟩

/-- Witness for C4 (amended): provider failure degrades to null on both
the Network schema's name extractor and its email extractor, and a
schema without an email field yields null from the email extractor. -/
theorem c4_targeted_extractors_witness :
    extract_entity_name_only network_fields (.error "boom") = .ok none ∧
    extract_entity_email_only network_fields (.error "boom") = .ok none ∧
    extract_entity_email_only [⟨"city", "City", .str⟩]
        (.ok ⟨none, none⟩)
      = .ok none := by
  exact ⟨c4_targeted_extractors.2.2.2.1 network_fields "boom"
      ⟨"name", "Name", .str⟩ (by decide),
    c4_targeted_extractors.2.2.1 network_fields "boom",
    c4_targeted_extractors.1 [⟨"city", "City", .str⟩]
      (.ok ⟨none, none⟩) (by decide)⟩

/-- C8: every structured-generation request the create and update paths
issue through `OpenAIClient.parse` carries temperature fixed at zero,
and therefore two runs of either path on the same input produce the same
structured result whenever the provider behaves identically on
temperature-zero requests. -/
theorem c8_temperature_zero :
    (∀ (model : String) (input : List Message) (tf : String),
      (openai_parse model input tf).temperature = 0) ∧
    (∀ (model sp sv : String) (fields : List FieldSpec) (text : String),
      (extract_request model sp sv fields text).temperature = 0) ∧
    (∀ (model usp sv : String) (fields : List FieldSpec) (text er : String),
      (update_request model usp sv fields text er).temperature = 0) ∧
    (∀ (model sp sv : String) (fields : List FieldSpec) (text : String)
      (p1 p2 : ParseRequest → ProviderResponse),
      (∀ req : ParseRequest, req.temperature = 0 → p1 req = p2 req) →
        extract_via_client model sp sv fields text p1
          = extract_via_client model sp sv fields text p2) ∧
    (∀ (model usp sv : String) (fields : List FieldSpec)
      (text : String) (existing : Rec PyVal) (er : String)
      (p1 p2 : ParseRequest → ProviderResponse),
      (∀ req : ParseRequest, req.temperature = 0 → p1 req = p2 req) →
        update_via_client model usp sv fields text existing er p1
          = update_via_client model usp sv fields text existing er p2) := by
  refine ⟨fun _ _ _ => rfl, fun _ _ _ _ _ => rfl, fun _ _ _ _ _ _ => rfl,
    ?_, ?_⟩
  · intro model sp sv fields text p1 p2 hagree
    unfold extract_via_client
    rw [hagree (extract_request model sp sv fields text) rfl]
  · intro model usp sv fields text existing er p1 p2 hagree
    unfold update_via_client
    rw [hagree (update_request model usp sv fields text er) rfl]

/-- Witness for C8 at a concrete request and provider pair. -/
theorem c8_temperature_zero_witness :
    (extract_request "gpt-4o-2024-08-06" "sys" "deal_flow"
        deal_flow_fields "some text").temperature = 0 ∧
    extract_via_client "gpt-4o-2024-08-06" "sys" "deal_flow"
        deal_flow_fields "some text" (fun _ => ⟨none, some "raw"⟩)
      = extract_via_client "gpt-4o-2024-08-06" "sys" "deal_flow"
          deal_flow_fields "some text" (fun _ => ⟨none, some "raw"⟩) := by
  exact ⟨c8_temperature_zero.2.1 "gpt-4o-2024-08-06" "sys" "deal_flow"
      deal_flow_fields "some text",
    c8_temperature_zero.2.2.2.1 "gpt-4o-2024-08-06" "sys" "deal_flow"
      deal_flow_fields "some text" (fun _ => ⟨none, some "raw"⟩)
      (fun _ => ⟨none, some "raw"⟩) (fun _ _ => rfl)⟩

/-- C9: the system prompt's state-code table covers exactly the 50 US
states plus DC with pairwise distinct codes; expanding `"City, XX"` for a
tabled code yields the city verbatim plus the documented full name
(which is a member of the `USStateName` enum, so validation accepts it);
a 2-letter code outside the table yields a null state. -/
theorem c9_state_code_expansion :
    ((us_state_code_table.map Prod.fst).Nodup ∧
      us_state_code_table.length = 51) ∧
    (∀ code full, (code, full) ∈ us_state_code_table →
      expand_state_code code = some full ∧
      full ∈ us_state_name_values ∧
      ∀ city, expand_location city code = (city, some full)) ∧
    (∀ code, code ∉ us_state_code_table.map Prod.fst →
      expand_state_code code = none ∧
      ∀ city, expand_location city code = (city, none)) := by
  have hnd : (us_state_code_table.map Prod.fst).Nodup := by decide
  refine ⟨⟨hnd, by decide⟩, ?_, ?_⟩
  · intro code full hmem
    have hlk : pyLookup us_state_code_table code = some full :=
      pyLookup_eq_of_mem_nodup us_state_code_table code full hnd hmem
    have hexp : expand_state_code code = some full := hlk
    have hval : ∀ p ∈ us_state_code_table, p.2 ∈ us_state_name_values := by
      decide
    refine ⟨hexp, hval (code, full) hmem, ?_⟩
    intro city
    simp [expand_location, hexp]
  · intro code hnot
    have hmem : pyMem us_state_code_table code = false := by
      cases hm : pyMem us_state_code_table code
      · rfl
      · exact absurd ((pyMem_iff_mem_keys us_state_code_table code).1 hm)
          hnot
    have hexp : expand_state_code code = none :=
      pyLookup_eq_none_of_not_mem us_state_code_table code hmem
    refine ⟨hexp, ?_⟩
    intro city
    simp [expand_location, hexp]

/-- Witness for C9: `"Austin, TX"` expands to Texas; `"ZZ"` is unmapped. -/
theorem c9_state_code_expansion_witness :
    expand_location "Austin" "TX" = ("Austin", some "Texas") ∧
    expand_state_code "ZZ" = none := by
  have h1 := c9_state_code_expansion.2.1 "TX" "Texas" (by decide)
  have h2 := c9_state_code_expansion.2.2 "ZZ" (by decide)
  exact ⟨h1.2.2 "Austin", h2.1⟩

theorem pyMem_cons {V : Type} (p : String × V) (t : PyDict V) (k : String) :
    pyMem (p :: t) k = ((p.1 == k) || pyMem t k) := by
  simp [pyMem]

theorem pyLookup_map_replace_self {V : Type} (d : PyDict V) (k : String)
    (v : V) (h : pyMem d k = true) :
    pyLookup (d.map (fun p => if p.1 == k then (k, v) else p)) k = some v := by
  induction d with
  | nil => simp [pyMem] at h
  | cons p t ih =>
    by_cases hpk : p.1 = k
    · have hbe : (p.1 == k) = true := by simp [hpk]
      simp [pyLookup, List.find?, hbe]
    · have hne : (p.1 == k) = false := by simp [hpk]
      rw [pyMem_cons, hne, Bool.false_or] at h
      simp only [List.map_cons, hne, Bool.false_eq_true, if_false]
      simp only [pyLookup, List.find?, hne]
      exact ih h

theorem pyLookup_map_replace_other {V : Type} (d : PyDict V)
    (k k' : String) (v : V) (hk : k' ≠ k) :
    pyLookup (d.map (fun p => if p.1 == k then (k, v) else p)) k'
      = pyLookup d k' := by
  induction d with
  | nil => rfl
  | cons p t ih =>
    by_cases hpk : p.1 = k
    · have hbe : (p.1 == k) = true := by simp [hpk]
      have hkk : ¬ k = k' := fun h => hk h.symm
      have hne2 : (k == k') = false := by
        simp [hkk]
      have hne3 : (p.1 == k') = false := by
        rw [hpk]
        exact hne2
      simp only [List.map_cons, hbe, if_true]
      simp only [pyLookup, List.find?, hne2, hne3]
      exact ih
    · have hne : (p.1 == k) = false := by simp [hpk]
      simp only [List.map_cons, hne, Bool.false_eq_true, if_false]
      cases hpe : (p.1 == k') with
      | true =>
        simp [pyLookup, List.find?, hpe]
      | false =>
        simp only [pyLookup, List.find?, hpe]
        exact ih

theorem pyLookup_append {V : Type} (d1 d2 : PyDict V) (k : String) :
    pyLookup (d1 ++ d2) k
      = match pyLookup d1 k with
        | some v => some v
        | none => pyLookup d2 k := by
  induction d1 with
  | nil => simp [pyLookup]
  | cons p t ih =>
    cases hpe : (p.1 == k) with
    | true => simp [pyLookup, List.find?, hpe]
    | false =>
      simp only [List.cons_append, pyLookup, List.find?, hpe]
      exact ih

theorem pyLookup_pyInsert_self {V : Type} (d : PyDict V) (k : String)
    (v : V) : pyLookup (pyInsert d k v) k = some v := by
  unfold pyInsert
  cases h : pyMem d k with
  | true =>
    simp only [if_true]
    exact pyLookup_map_replace_self d k v h
  | false =>
    simp only [Bool.false_eq_true, if_false]
    rw [pyLookup_append]
    rw [pyLookup_eq_none_of_not_mem d k h]
    simp [pyLookup, List.find?]

theorem pyLookup_pyInsert_other {V : Type} (d : PyDict V) (k k' : String)
    (v : V) (hk : k' ≠ k) :
    pyLookup (pyInsert d k v) k' = pyLookup d k' := by
  unfold pyInsert
  cases h : pyMem d k with
  | true =>
    simp only [if_true]
    exact pyLookup_map_replace_other d k k' v hk
  | false =>
    simp only [Bool.false_eq_true, if_false]
    rw [pyLookup_append]
    have hkk : ¬ k = k' := fun h => hk h.symm
    have hne : (k == k') = false := by
      simp [hkk]
    cases hl : pyLookup d k' with
    | some w => rfl
    | none => simp [pyLookup, List.find?, hne]

theorem mem_pyInsert {V : Type} (d : PyDict V) (k : String) (v : V)
    (p : String × V) (h : p ∈ pyInsert d k v) : p ∈ d ∨ p = (k, v) := by
  unfold pyInsert at h
  cases hm : pyMem d k with
  | true =>
    rw [hm] at h
    simp only [if_true] at h
    obtain ⟨q, hq, hpq⟩ := List.mem_map.1 h
    by_cases hqk : q.1 = k
    · right
      rw [← hpq]
      simp [hqk]
    · left
      rw [← hpq]
      have : (q.1 == k) = false := by simp [hqk]
      simp [this]
      exact hq
  | false =>
    rw [hm] at h
    simp only [Bool.false_eq_true, if_false] at h
    rcases List.mem_append.1 h with h1 | h2
    · exact Or.inl h1
    · exact Or.inr (List.mem_singleton.1 h2)

theorem mem_keys_pyInsert {V : Type} (d : PyDict V) (k k' : String)
    (v : V) (h : k' ∈ (pyInsert d k v).map Prod.fst) :
    k' ∈ d.map Prod.fst ∨ k' = k := by
  obtain ⟨p, hp, hpk⟩ := List.mem_map.1 h
  rcases mem_pyInsert d k v p hp with hd | hkv
  · exact Or.inl (List.mem_map.2 ⟨p, hd, hpk⟩)
  · right
    rw [← hpk, hkv]

theorem keys_map_replace {V : Type} (d : PyDict V) (k : String) (v : V) :
    (d.map (fun p => if p.1 == k then (k, v) else p)).map Prod.fst
      = d.map Prod.fst := by
  induction d with
  | nil => rfl
  | cons p t ih =>
    by_cases hpk : p.1 = k
    · have hbe : (p.1 == k) = true := by simp [hpk]
      simp only [List.map_cons, hbe, if_true]
      rw [ih, hpk]
    · have hne : (p.1 == k) = false := by simp [hpk]
      simp only [List.map_cons, hne, Bool.false_eq_true, if_false]
      rw [ih]

theorem nodup_keys_pyInsert {V : Type} (d : PyDict V) (k : String)
    (v : V) (h : (d.map Prod.fst).Nodup) :
    ((pyInsert d k v).map Prod.fst).Nodup := by
  unfold pyInsert
  cases hm : pyMem d k with
  | true =>
    simp only [if_true]
    rw [keys_map_replace]
    exact h
  | false =>
    simp only [Bool.false_eq_true, if_false]
    rw [List.map_append]
    refine List.Nodup.append h (by simp) ?_
    intro x hx
    simp only [List.map_cons, List.map_nil, List.mem_singleton]
    intro hxk
    rw [hxk] at hx
    have : pyMem d k = true := (pyMem_iff_mem_keys d k).2 hx
    rw [hm] at this
    exact Bool.noConfusion this

theorem pyLookup_mem_of_eq_some {V : Type} (d : PyDict V) (k : String)
    (v : V) (h : pyLookup d k = some v) : (k, v) ∈ d := by
  induction d with
  | nil => simp [pyLookup] at h
  | cons q t ih =>
    cases hq : (q.1 == k) with
    | true =>
      simp only [pyLookup, List.find?, hq] at h
      have hk : q.1 = k := by simpa using hq
      have hv : q.2 = v := by simpa using h
      have : (k, v) = q := by
        rw [← hk, ← hv]
      rw [this]
      exact List.mem_cons_self q t
    | false =>
      simp only [pyLookup, List.find?, hq] at h
      exact List.mem_cons_of_mem q (ih h)

/-- Every entry of `alias_map` maps a normalized form of an alias (its
lowercased/stripped form, or its lowercased parenthetical-stripped form)
to that alias. -/
theorem alias_map_inv (S : List String) :
    ∀ (al : List String) (m : PyDict String),
      (∀ a ∈ al, a ∈ S) →
      (∀ p ∈ m, p.2 ∈ S ∧ (p.1 = pyStrip (pyLower p.2) ∨
        p.1 = pyLower (pyStrip (beforeParen p.2)))) →
      ∀ p ∈ al.foldl
        (fun m a =>
          let m1 := pyInsert m (pyStrip (pyLower a)) a
          let base := pyStrip (beforeParen a)
          if pyLower base ≠ pyLower a then pyInsert m1 (pyLower base) a
          else m1)
        m,
        p.2 ∈ S ∧ (p.1 = pyStrip (pyLower p.2) ∨
          p.1 = pyLower (pyStrip (beforeParen p.2))) := by
  intro al
  induction al with
  | nil =>
    intro m _ hm p hp
    exact hm p hp
  | cons a t ih =>
    intro m hal hm p hp
    rw [List.foldl_cons] at hp
    refine ih _ (fun x hx => hal x (List.mem_cons_of_mem a hx)) ?_ p hp
    intro q hq
    have haS : a ∈ S := hal a (List.mem_cons_self a t)
    simp only at hq
    by_cases hc : pyLower (pyStrip (beforeParen a)) ≠ pyLower a
    · rw [if_pos hc] at hq
      rcases mem_pyInsert _ _ _ q hq with hq1 | hq2
      · rcases mem_pyInsert _ _ _ q hq1 with hq3 | hq4
        · exact hm q hq3
        · rw [hq4]
          exact ⟨haS, Or.inl rfl⟩
      · rw [hq2]
        exact ⟨haS, Or.inr rfl⟩
    · rw [if_neg hc] at hq
      rcases mem_pyInsert _ _ _ q hq with hq3 | hq4
      · exact hm q hq3
      · rw [hq4]
        exact ⟨haS, Or.inl rfl⟩

theorem alias_map_entries (aliases : List String) (p : String × String)
    (hp : p ∈ alias_map aliases) :
    p.2 ∈ aliases ∧ (p.1 = pyStrip (pyLower p.2) ∨
      p.1 = pyLower (pyStrip (beforeParen p.2))) := by
  unfold alias_map at hp
  exact alias_map_inv aliases aliases [] (fun a ha => ha) (by simp) p hp

theorem targetKey_of_mem (aliases : List String) (k : String)
    (h : k ∈ aliases) : targetKey aliases k = k := by
  simp [targetKey, h]

theorem targetKey_cases (aliases : List String) (k : String) :
    targetKey aliases k = k ∨ targetKey aliases k ∈ aliases := by
  unfold targetKey
  by_cases hmem : k ∈ aliases
  · rw [if_pos hmem]
    exact Or.inl rfl
  · rw [if_neg hmem]
    cases h1 : pyLookup (alias_map aliases) (pyStrip (pyLower k)) with
    | some a =>
      refine Or.inr ?_
      have := alias_map_entries aliases (pyStrip (pyLower k), a)
        (pyLookup_mem_of_eq_some _ _ _ h1)
      exact this.1
    | none =>
      cases h2 : pyLookup (alias_map aliases)
          (pyLower (pyStrip (beforeParen k))) with
      | some a =>
        refine Or.inr ?_
        have := alias_map_entries aliases
          (pyLower (pyStrip (beforeParen k)), a)
          (pyLookup_mem_of_eq_some _ _ _ h2)
        exact this.1
      | none => exact Or.inl rfl

theorem targetKey_idem (aliases : List String) (k : String) :
    targetKey aliases (targetKey aliases k) = targetKey aliases k := by
  rcases targetKey_cases aliases k with h | h
  · rw [h]
    exact h
  · exact targetKey_of_mem aliases _ h

theorem targetKey_ne_outside (aliases : List String) (k k2 : String)
    (hout : k ∉ aliases) (hne : k2 ≠ k) : targetKey aliases k2 ≠ k := by
  intro heq
  rcases targetKey_cases aliases k2 with h | h
  · rw [h] at heq
    exact hne heq
  · rw [heq] at h
    exact hout h

theorem foldl_congr_mem {α β : Type} (l : List α) (f g : β → α → β)
    (h : ∀ acc a, a ∈ l → f acc a = g acc a) :
    ∀ init : β, l.foldl f init = l.foldl g init := by
  induction l with
  | nil =>
    intro init
    rfl
  | cons a t ih =>
    intro init
    rw [List.foldl_cons, List.foldl_cons,
      h init a (List.mem_cons_self a t)]
    exact ih (fun acc x hx => h acc x (List.mem_cons_of_mem a hx)) _

/-- Every key of the dict built by the normalizer's loop is a fixed point
of the key-matching chain. -/
theorem keys_foldl_fix {V : Type} (aliases : List String) :
    ∀ (l : List (String × V)) (acc : PyDict V),
      (∀ k ∈ acc.map Prod.fst, targetKey aliases k = k) →
      ∀ k ∈ (l.foldl
          (fun a p => pyInsert a (targetKey aliases p.1) p.2)
          acc).map Prod.fst,
        targetKey aliases k = k := by
  intro l
  induction l with
  | nil =>
    intro acc hacc k hk
    exact hacc k hk
  | cons p t ih =>
    intro acc hacc k hk
    rw [List.foldl_cons] at hk
    refine ih _ ?_ k hk
    intro k2 hk2
    rcases mem_keys_pyInsert _ _ _ _ hk2 with h | h
    · exact hacc k2 h
    · rw [h]
      exact targetKey_idem aliases p.1

theorem nodup_keys_foldl {V : Type} (aliases : List String) :
    ∀ (l : List (String × V)) (acc : PyDict V),
      (acc.map Prod.fst).Nodup →
      ((l.foldl (fun a p => pyInsert a (targetKey aliases p.1) p.2)
          acc).map Prod.fst).Nodup := by
  intro l
  induction l with
  | nil =>
    intro acc hacc
    exact hacc
  | cons p t ih =>
    intro acc hacc
    rw [List.foldl_cons]
    exact ih _ (nodup_keys_pyInsert _ _ _ hacc)

theorem pyMem_append {V : Type} (d1 d2 : PyDict V) (k : String) :
    pyMem (d1 ++ d2) k = (pyMem d1 k || pyMem d2 k) := by
  simp [pyMem, List.any_append]

/-- Folding plain insertion of fresh, pairwise-distinct keys rebuilds the
list. -/
theorem foldl_pyInsert_rebuild {V : Type} :
    ∀ (d acc : PyDict V), (d.map Prod.fst).Nodup →
      (∀ k ∈ d.map Prod.fst, pyMem acc k = false) →
      d.foldl (fun a p => pyInsert a p.1 p.2) acc = acc ++ d := by
  intro d
  induction d with
  | nil =>
    intro acc _ _
    simp
  | cons p t ih =>
    intro acc hnd hdisj
    obtain ⟨k, v⟩ := p
    have hk : pyMem acc k = false :=
      hdisj k (by simp)
    have hknt : k ∉ t.map Prod.fst := by
      rw [List.map_cons] at hnd
      exact (List.nodup_cons.1 hnd).1
    rw [List.foldl_cons]
    have hins : pyInsert acc k v = acc ++ [(k, v)] := by
      unfold pyInsert
      rw [hk]
      simp
    rw [hins]
    have htail := ih (acc ++ [(k, v)]) (by
        rw [List.map_cons] at hnd
        exact (List.nodup_cons.1 hnd).2)
      (by
        intro k2 hk2
        rw [pyMem_append]
        have h1 : pyMem acc k2 = false :=
          hdisj k2 (by simp [hk2])
        have h2 : pyMem [(k, v)] k2 = false := by
          have : ¬ k = k2 := by
            intro hkk
            rw [hkk] at hknt
            exact hknt hk2
          simp [pyMem, this]
        rw [h1, h2]
        rfl)
    rw [htail]
    simp

/-- C6: the field-name normalizer is idempotent: normalizing a flat
record twice gives the same dict as normalizing it once; in particular
normalizing an already-canonical record is a no-op. -/
theorem c6_normalize_idempotent :
    ∀ (V : Type) (aliases : List String) (d : PyDict V),
      normalize_existing_data aliases (normalize_existing_data aliases d)
        = normalize_existing_data aliases d := by
  intro V aliases d
  have hfix : ∀ k ∈ (normalize_existing_data aliases d).map Prod.fst,
      targetKey aliases k = k := by
    intro k hk
    exact keys_foldl_fix aliases d [] (by simp) k hk
  have hnd : ((normalize_existing_data aliases d).map Prod.fst).Nodup :=
    nodup_keys_foldl aliases d [] (by simp)
  show (normalize_existing_data aliases d).foldl
      (fun a p => pyInsert a (targetKey aliases p.1) p.2) []
    = normalize_existing_data aliases d
  rw [foldl_congr_mem (normalize_existing_data aliases d)
    (fun a p => pyInsert a (targetKey aliases p.1) p.2)
    (fun a p => pyInsert a p.1 p.2)
    (by
      intro acc p hp
      show pyInsert acc (targetKey aliases p.1) p.2 = pyInsert acc p.1 p.2
      rw [hfix p.1 (List.mem_map.2 ⟨p, hp, rfl⟩)]) []]
  rw [foldl_pyInsert_rebuild (normalize_existing_data aliases d) [] hnd
    (by
      intro k _
      rfl)]
  simp

/-- A key matched by none of the normalizer's three matchers is touched
only by its own binding during the loop: its final lookup is its lookup
in the input, with the accumulator as fallback. -/
theorem pass_through_fold {V : Type} (aliases : List String) (k : String)
    (hout : k ∉ aliases) (hfixk : targetKey aliases k = k) :
    ∀ (d : PyDict V), (d.map Prod.fst).Nodup → ∀ (acc : PyDict V),
      pyLookup (d.foldl
          (fun a p => pyInsert a (targetKey aliases p.1) p.2) acc) k
        = match pyLookup d k with
          | some v => some v
          | none => pyLookup acc k := by
  intro d
  induction d with
  | nil =>
    intro _ acc
    simp [pyLookup]
  | cons p t ih =>
    intro hnd acc
    obtain ⟨k1, v1⟩ := p
    have hndt : (t.map Prod.fst).Nodup := by
      rw [List.map_cons] at hnd
      exact (List.nodup_cons.1 hnd).2
    rw [List.foldl_cons]
    by_cases hk1 : k1 = k
    · subst hk1
      have hknt : k1 ∉ t.map Prod.fst := by
        rw [List.map_cons] at hnd
        exact (List.nodup_cons.1 hnd).1
      have hlt : pyLookup t k1 = none := by
        refine pyLookup_eq_none_of_not_mem t k1 ?_
        cases hm : pyMem t k1 with
        | false => rfl
        | true => exact absurd ((pyMem_iff_mem_keys t k1).1 hm) hknt
      rw [ih hndt (pyInsert acc (targetKey aliases k1) v1), hlt, hfixk]
      rw [pyLookup_pyInsert_self]
      simp [pyLookup, List.find?]
    · have hne : targetKey aliases k1 ≠ k :=
        targetKey_ne_outside aliases k k1 hout hk1
      have hbe : (k1 == k) = false := by simp [hk1]
      rw [ih hndt (pyInsert acc (targetKey aliases k1) v1)]
      rw [pyLookup_pyInsert_other acc (targetKey aliases k1) k v1
        (fun h => hne h.symm)]
      simp only [pyLookup, List.find?, hbe]

/-- C5: the normalizer re-files each incoming key (carrying its value
with it) by trying, in order, an exact alias match, then a lookup of its
case/whitespace-normalized form in the alias map — whose entries all map
the normalized form of an alias, or the normalized form of an alias with
its trailing parenthetical stripped, to that alias — then a lookup of
its parenthetical-stripped normalized form; a key matching none of these
passes through unchanged with its value preserved, never dropped. -/
theorem c5_normalize_key_matching :
    ∀ (aliases : List String) (k : String),
      (∀ (V : Type) (v : V),
        normalize_existing_data aliases [(k, v)]
          = [(targetKey aliases k, v)]) ∧
      (k ∈ aliases → targetKey aliases k = k) ∧
      (∀ s a, pyLookup (alias_map aliases) s = some a →
        a ∈ aliases ∧ (s = pyStrip (pyLower a) ∨
          s = pyLower (pyStrip (beforeParen a)))) ∧
      (k ∉ aliases → ∀ a,
        pyLookup (alias_map aliases) (pyStrip (pyLower k)) = some a →
        targetKey aliases k = a) ∧
      (k ∉ aliases →
        pyLookup (alias_map aliases) (pyStrip (pyLower k)) = none →
        ∀ a, pyLookup (alias_map aliases)
            (pyLower (pyStrip (beforeParen k))) = some a →
          targetKey aliases k = a) ∧
      (k ∉ aliases →
        pyLookup (alias_map aliases) (pyStrip (pyLower k)) = none →
        pyLookup (alias_map aliases)
          (pyLower (pyStrip (beforeParen k))) = none →
        targetKey aliases k = k ∧
        ∀ (V : Type) (d : PyDict V), (d.map Prod.fst).Nodup →
          pyLookup (normalize_existing_data aliases d) k
            = pyLookup d k) := by
  intro aliases k
  refine ⟨?_, targetKey_of_mem aliases k, ?_, ?_, ?_, ?_⟩
  · intro V v
    show pyInsert [] (targetKey aliases k) v = [(targetKey aliases k, v)]
    rfl
  · intro s a h
    exact ⟨(alias_map_entries aliases (s, a)
        (pyLookup_mem_of_eq_some _ _ _ h)).1,
      by
        rcases (alias_map_entries aliases (s, a)
          (pyLookup_mem_of_eq_some _ _ _ h)).2 with h2 | h2
        · exact Or.inl h2
        · exact Or.inr h2⟩
  · intro hout a h
    simp [targetKey, hout, h]
  · intro hout h1 a h2
    simp [targetKey, hout, h1, h2]
  · intro hout h1 h2
    have hfixk : targetKey aliases k = k := by
      simp [targetKey, hout, h1, h2]
    refine ⟨hfixk, ?_⟩
    intro V d hnd
    have := pass_through_fold aliases k hout hfixk d hnd []
    rw [show normalize_existing_data aliases d
        = d.foldl (fun a p => pyInsert a (targetKey aliases p.1) p.2) []
      from rfl]
    rw [this]
    cases hd : pyLookup d k with
    | some v => rfl
    | none => simp [pyLookup]

/-- Witness for C5 on the DealFlow schema: an exact alias is kept; the
docstring's example key `"Revenue Run Rate (in $k)"` re-files to the
alias `"Revenue Run Rate"` through the parenthetical-stripped match; a
custom key passes through with its value preserved. -/
theorem c5_normalize_key_matching_witness :
    targetKey (deal_flow_fields.map (·.aliasName)) "Email" = "Email" ∧
    targetKey (deal_flow_fields.map (·.aliasName))
        "Revenue Run Rate (in $k)" = "Revenue Run Rate" ∧
    pyLookup (normalize_existing_data
        (deal_flow_fields.map (·.aliasName))
        [("Custom Field", "x")]) "Custom Field"
      = pyLookup [("Custom Field", "x")] "Custom Field" := by
  have h1 := (c5_normalize_key_matching
    (deal_flow_fields.map (·.aliasName)) "Email").2.1 (by decide)
  have h2 := (c5_normalize_key_matching
    (deal_flow_fields.map (·.aliasName))
    "Revenue Run Rate (in $k)").2.2.2.2.1 (by decide) (by decide)
    "Revenue Run Rate" (by decide)
  have h3 := ((c5_normalize_key_matching
    (deal_flow_fields.map (·.aliasName))
    "Custom Field").2.2.2.2.2 (by decide) (by decide) (by decide)).2
    String [("Custom Field", "x")] (by decide)
  exact ⟨h1, h2, h3⟩

end Lioncrest
